import Mathlib

/-!
Verification of the Gomoku/Renju engine (board.c, game.c, io.c).

Shallow embedding conventions:

* C `unsigned char` values are embedded as `Nat`, reduced modulo 256 exactly
  where the C performs a narrowing conversion (helpers `ucSub`, `ucAdd`).
* The backing store of the board is `malloc(size*size)` bytes, accessed through the
  two-dimensional view `grid[y][x]`, i.e. flat index `y*size + x`.  We embed
  the memory as a total function `cells : Nat → Nat`: indices `< size*size`
  are the grid proper (initialised to 0 by `board_create`); larger indices
  model whatever bytes happen to sit past the allocation.  Reads of such
  indices are out-of-bounds reads in the C program (undefined behaviour); the
  embedding makes them read the unspecified but fixed contents that
  `board_create` was seeded with, so theorems quantify over those contents.
* Fallible operations (the size check of `board_create`, the format
  checks of `game_import`, the coordinate conversions) return `Option`; the C program calls
  `exit` on the `none` paths.
* `game.moves` (a doubling dynamic array in C) is embedded as a `List`; the
  capacity bookkeeping has no observable effect and is dropped.
-/

/-- Intersection state `EMPTY_INTERSECTION` (board.h). -/
def EMPTY_INTERSECTION : Nat := 0

/-- Intersection state `BLACK_STONE` (board.h). -/
def BLACK_STONE : Nat := 1

/-- Intersection state `WHITE_STONE` (board.h). -/
def WHITE_STONE : Nat := 2

/-- Game type `GAME_FREESTYLE` (game.h). -/
def GAME_FREESTYLE : Nat := 0

/-- Game type `GAME_RENJU` (game.h). -/
def GAME_RENJU : Nat := 1

/-- Game state `GAME_STATE_PLAYING` (game.h). -/
def GAME_STATE_PLAYING : Nat := 0

/-- Game state `GAME_STATE_FORBIDDEN` (game.h). -/
def GAME_STATE_FORBIDDEN : Nat := 1

/-- Game state `GAME_STATE_STOPPED` (game.h). -/
def GAME_STATE_STOPPED : Nat := 2

/-- Game state `GAME_STATE_FINISHED` (game.h). -/
def GAME_STATE_FINISHED : Nat := 3

/-- Narrowing of an `int` expression `a - k` (with `a ≤ 255`, `k ≤ 255`) to
`unsigned char`, as happens at every `board_get(b, x - connections, ...)` call
site: wrap modulo 256 as for a two-complement narrowing. -/
def ucSub (a k : Nat) : Nat := (a + 256 - k) % 256

/-- Narrowing of an `int` expression `a + k` to `unsigned char` (modulo 256);
used where the C adds to an already-wrapped coordinate. -/
def ucAdd (a k : Nat) : Nat := (a + k) % 256

/-- The `board` struct (board.h): a size and the heap byte store, embedded
as a total function over flat indices (see the header comment). -/
structure Board where
  size : Nat
  cells : Nat → Nat

/-- `board_get` (board.c): `grid[y][x]`, i.e. the byte at flat index
`y*size + x`.  No bounds check is performed, exactly as in the source. -/
def board_get (b : Board) (x y : Nat) : Nat :=
  b.cells (y * b.size + x)

/-- `board_set` (board.c): store `stone` at `grid[y][x]`.  The C function
aborts unless `stone` is `BLACK_STONE` or `WHITE_STONE`; every call the
engine makes passes the current stone of the game, which is 1 or 2, so the abort
path is modelled as a precondition of the theorems rather than an `Option`. -/
def board_set (b : Board) (x y stone : Nat) : Board :=
  { b with cells := fun i => if i = y * b.size + x then stone else b.cells i }

/-- The grid produced by `board_create` (board.c) for a given size, seeded
with the unspecified out-of-allocation bytes `junk`: indices below
`size*size` are initialised to `EMPTY_INTERSECTION`. -/
def mkBoard (size : Nat) (junk : Nat → Nat) : Board :=
  ⟨size, fun i => if i < size * size then EMPTY_INTERSECTION else junk i⟩

/-- `board_create` (board.c): `exit(BOARD_SIZE_ERR)` unless the size is 15,
17 or 19, modelled as `none`. -/
def board_create (size : Nat) (junk : Nat → Nat) : Option Board :=
  if size = 15 ∨ size = 17 ∨ size = 19 then some (mkBoard size junk) else none

/-- `board_is_full` (board.c): scan `grid[i][j]` for an empty intersection. -/
def board_is_full (b : Board) : Bool :=
  (List.range b.size).all fun i =>
    (List.range b.size).all fun j => b.cells (i * b.size + j) != EMPTY_INTERSECTION

/-- `board_formal_coord` (board.c): convert `(x, y)` to the letter+number
text, as the list of bytes the function writes into the buffer of the caller
(letter `A` plus x, then the decimal digits of `size - y`; for one-digit rows the
function also writes the terminating NUL, for two-digit rows the third byte
is the ones digit).  Out-of-range coordinates return `COORDINATE_ERR`,
modelled as `none`.  Only `b->size` is consulted, so the embedding takes the
size directly. -/
def board_formal_coord (size x y : Nat) : Option (List Nat) :=
  if x ≥ size ∨ y ≥ size then none
  else
    let letter := 65 + x
    let row := size - y
    if row < 10 then some [letter, 48 + row]
    else some [letter, 49, 48 + (row - 10)]

/-- Byte class of C `isspace`, which the `%d` conversion of `sscanf` skips. -/
def isSpaceByte (c : Nat) : Bool := c == 32 || (9 ≤ c && c ≤ 13)

/-- Byte class of a decimal digit. -/
def isDigitByte (c : Nat) : Bool := 48 ≤ c && c ≤ 57

/-- Value of a list of digit bytes, most significant first. -/
def digitsVal (l : List Nat) : Nat :=
  l.foldl (fun a c => a * 10 + (c - 48)) 0

/-- The `%d` conversion of `sscanf` applied to the remaining bytes: skip
whitespace, accept an optional sign, then require at least one digit; the
value is unbounded here (the C `int` can overflow on inputs longer than the
length check of the caller admits, but every such input is rejected by that
check in both the C code and the embedding). -/
def scanIntTail : List Nat → Option Int
  | [] => none
  | c :: r =>
    if c = 43 then
      if r.takeWhile isDigitByte = [] then none
      else some (digitsVal (r.takeWhile isDigitByte))
    else if c = 45 then
      if r.takeWhile isDigitByte = [] then none
      else some (-(digitsVal (r.takeWhile isDigitByte) : Int))
    else
      if (c :: r).takeWhile isDigitByte = [] then none
      else some (digitsVal ((c :: r).takeWhile isDigitByte))

/-- See `scanIntTail`: the whole `%d` conversion, whitespace skipping
included. -/
def scanInt (l : List Nat) : Option Int :=
  scanIntTail (l.dropWhile isSpaceByte)

/-- `board_coord` (board.c): parse a formal coordinate with
`sscanf("%c%d")`, then validate the letter range, the row range and the text
length (`strlen ≤ 3`); any violation returns `FORMAL_COORDINATE_ERR`,
modelled as `none`.  The text is the NUL-free byte list of the C string. -/
def board_coord (size : Nat) (text : List Nat) : Option (Nat × Nat) :=
  match text with
  | [] => none
  | c :: rest =>
    match scanInt rest with
    | none => none
    | some row =>
      if c < 65 ∨ 65 + size ≤ c ∨ row < 1 ∨ (size : Int) < row ∨ 3 < text.length then
        none
      else
        some (c - 65, size - row.toNat)

/-- The `move` struct (game.h). -/
structure Move where
  x : Nat
  y : Nat
  stone : Nat
deriving DecidableEq

/-- The `game` struct (game.h); `moves_count` is `moves.length` and the
capacity field is dropped (see the header comment). -/
structure Game where
  board : Board
  type : Nat
  stone : Nat
  state : Nat
  winner : Nat
  moves : List Move

/-- The fields `game_create` (game.c) initialises, for an already-created
board. -/
def mkGame (b : Board) (game_type : Nat) : Game :=
  ⟨b, game_type, BLACK_STONE, GAME_STATE_PLAYING, EMPTY_INTERSECTION, []⟩

/-- `game_create` (game.c): create the board (aborting on a bad size) and
initialise the game fields. -/
def game_create (board_size game_type : Nat) (junk : Nat → Nat) : Option Game :=
  (board_create board_size junk).map fun b => mkGame b game_type

/-- Coordinates visited by the column scan of `verticalWin` (game.c):
`(x, i)` for `i = 0 .. size-1`. -/
def vertCoords (size x : Nat) : List (Nat × Nat) :=
  (List.range size).map fun i => (x, i)

/-- Coordinates visited by the row scan of `horizontalWin` (game.c):
`(i, y)` for `i = 0 .. size-1`. -/
def horizCoords (size y : Nat) : List (Nat × Nat) :=
  (List.range size).map fun i => (i, y)

/-- Coordinates visited by the scan of `diagonalDownWin` (game.c): first walk
to the top-left end of the diagonal (`min x y` steps), then walk down-right
while both coordinates are below `size`. -/
def ddCoords (size x y : Nat) : List (Nat × Nat) :=
  let m := min x y
  (List.range (size - (max x y - m))).map fun k => (x - m + k, y - m + k)

/-- Coordinates visited by the scan of `diagonalUpWin` (game.c): first walk
down-left while `y < size && x > 0` (so `min x (size - y)` steps, which can
leave the start row at `y = size`, one past the bottom), then walk up-right.
The loop guard `y >= 0` is always true for the `unsigned char` coordinate, so
the walk only stops when `x` reaches `size`, and `y` wraps modulo 256 past
the top edge — the scan list reproduces those wrapped coordinates. -/
def duCoords (size x y : Nat) : List (Nat × Nat) :=
  let m := min x (size - y)
  let x0 := x - m
  let y0 := y + m
  (List.range (size - x0)).map fun k => (x0 + k, ucSub y0 k)

/-- The connection-counting loop body shared by all four win scans and the
`overline` scans (game.c): walk the cell values in scan order, incrementing
`connections` on a match and resetting it otherwise; report success the
moment `connections` reaches `need`.  Returns the flag and the final counter
(the counter matters because `overline` does not reset it between its
horizontal and diagonal scans). -/
def scanRun (s need : Nat) : List Nat → Nat → Bool × Nat
  | [], conn => (false, conn)
  | c :: rest, conn =>
    if c = s then
      if conn + 1 = need then (true, conn + 1)
      else scanRun s need rest (conn + 1)
    else scanRun s need rest 0

/-- Cell values along a coordinate list. -/
def cellsAlong (b : Board) (l : List (Nat × Nat)) : List Nat :=
  l.map fun p => board_get b p.1 p.2

/-- `verticalWin` (game.c). -/
def verticalWin (g : Game) (x : Nat) : Bool :=
  (scanRun g.stone 5 (cellsAlong g.board (vertCoords g.board.size x)) 0).1

/-- `horizontalWin` (game.c). -/
def horizontalWin (g : Game) (y : Nat) : Bool :=
  (scanRun g.stone 5 (cellsAlong g.board (horizCoords g.board.size y)) 0).1

/-- `diagonalDownWin` (game.c). -/
def diagonalDownWin (g : Game) (x y : Nat) : Bool :=
  (scanRun g.stone 5 (cellsAlong g.board (ddCoords g.board.size x y)) 0).1

/-- `diagonalUpWin` (game.c). -/
def diagonalUpWin (g : Game) (x y : Nat) : Bool :=
  (scanRun g.stone 5 (cellsAlong g.board (duCoords g.board.size x y)) 0).1

/-- The four-way win test of `game_place_stone` and `doubleOpenFours`
(game.c). -/
def anyWin (g : Game) (x y : Nat) : Bool :=
  verticalWin g x || horizontalWin g y || diagonalDownWin g x y || diagonalUpWin g x y

/-- One axis pass of the open-four count in `doubleOpenFours` (game.c): walk
the coordinate list counting connections; when the counter reaches exactly 4
consult the two flanking cells `flank` dictates for the current position (the
source reads `(x+1, i)`-style neighbours whose coordinates depend on the
axis) and count an open four when both read `EMPTY_INTERSECTION`. -/
def openFourScan (b : Board) (s : Nat) (flank : Nat → Nat → Bool) :
    List (Nat × Nat) → Nat → Nat → Nat
  | [], _, cnt => cnt
  | p :: rest, conn, cnt =>
    if board_get b p.1 p.2 = s then
      if conn + 1 = 4 then
        if flank p.1 p.2 then openFourScan b s flank rest (conn + 1) (cnt + 1)
        else openFourScan b s flank rest (conn + 1) cnt
      else openFourScan b s flank rest (conn + 1) cnt
    else openFourScan b s flank rest 0 cnt

/-- The accumulated open-four count of `doubleOpenFours` (game.c), with the
exact flanking reads of the source: the vertical pass checks `(x+1, i)` and
`(x-4, i)`, the horizontal pass `(j, y+1)` and `(j, y-4)`, the diagonal
passes the cells one step beyond the run along the diagonal.  `connections`
is reset to 0 before each pass; the count accumulates across all four. -/
def openFoursCount (b : Board) (s x y : Nat) : Nat :=
  let c1 := openFourScan b s
    (fun _ py => board_get b (x + 1) py == EMPTY_INTERSECTION &&
                 board_get b (ucSub x 4) py == EMPTY_INTERSECTION)
    (vertCoords b.size x) 0 0
  let c2 := openFourScan b s
    (fun px _ => board_get b px (y + 1) == EMPTY_INTERSECTION &&
                 board_get b px (ucSub y 4) == EMPTY_INTERSECTION)
    (horizCoords b.size y) 0 c1
  let c3 := openFourScan b s
    (fun px py => board_get b (px + 1) (py + 1) == EMPTY_INTERSECTION &&
                  board_get b (ucSub px 4) (ucSub py 4) == EMPTY_INTERSECTION)
    (ddCoords b.size x y) 0 c2
  openFourScan b s
    (fun px py => board_get b (px + 1) (ucSub py 1) == EMPTY_INTERSECTION &&
                  board_get b (ucSub px 4) (ucAdd py 4) == EMPTY_INTERSECTION)
    (duCoords b.size x y) 0 c3

/-- `doubleOpenFours` (game.c): if the placement wins outright, record the
win; otherwise count open fours across the four axes and flag a forbidden
move when more than `ALLOWED_OPEN_FOURS = 1` were produced. -/
def doubleOpenFours (g : Game) (x y : Nat) : Game :=
  if anyWin g x y then
    { g with winner := g.stone, state := GAME_STATE_FINISHED }
  else if openFoursCount g.board g.stone x y > 1 then
    { g with state := GAME_STATE_FORBIDDEN, winner := WHITE_STONE }
  else g

/-- `overline` (game.c): look for `NEEDED_CONNECTIONS + 1 = 6` connections.
The counter is reset between the vertical and horizontal passes but — as in
the source — NOT between the horizontal, diagonal-down and diagonal-up
passes, so trailing connections of one pass carry into the next. -/
def overline (g : Game) (x y : Nat) : Bool :=
  let s := g.stone
  let b := g.board
  let r1 := scanRun s 6 (cellsAlong b (vertCoords b.size x)) 0
  if r1.1 then true
  else
    let r2 := scanRun s 6 (cellsAlong b (horizCoords b.size y)) 0
    if r2.1 then true
    else
      let r3 := scanRun s 6 (cellsAlong b (ddCoords b.size x y)) r2.2
      if r3.1 then true
      else (scanRun s 6 (cellsAlong b (duCoords b.size x y)) r3.2).1

/-- The game after the two mutation steps of `game_place_stone` (game.c)
that precede the rule evaluation: append `{x, y, g->stone}` to the move log
and store the stone on the board. -/
def placedGame (g : Game) (x y : Nat) : Game :=
  { g with
    moves := g.moves ++ [⟨x, y, g.stone⟩]
    board := board_set g.board x y g.stone }

/-- `game_place_stone` (game.c).  Returns the `bool` of the C function along with
the mutated game; an occupied target cell returns `false` with the game
untouched. -/
def game_place_stone (g : Game) (x y : Nat) : Bool × Game :=
  if board_get g.board x y ≠ EMPTY_INTERSECTION then
    (false, g)
  else
    let g1 : Game := placedGame g x y
    if g1.type = GAME_RENJU ∧ g1.stone = BLACK_STONE then
      let g2 := doubleOpenFours g1 x y
      if g2.winner = BLACK_STONE ∧ overline g2 x y then
        (true, { g2 with winner := WHITE_STONE, state := GAME_STATE_FORBIDDEN })
      else
        (true, { g2 with stone := WHITE_STONE })
    else if anyWin g1 x y then
      (true, { g1 with winner := g1.stone, state := GAME_STATE_FINISHED })
    else if board_is_full g1.board then
      (true, { g1 with state := GAME_STATE_FINISHED })
    else
      (true, { g1 with stone := if g1.stone = BLACK_STONE then WHITE_STONE else BLACK_STONE })

/-- Fold a list of coordinate pairs through `game_place_stone`, keeping only
the mutated game (how every driver in the repository issues moves). -/
def applyMoves (g : Game) (ms : List (Nat × Nat)) : Game :=
  ms.foldl (fun g p => (game_place_stone g p.1 p.2).2) g

/-- Decimal digit bytes of a natural number, as `printf("%d")` writes them
(the engine only prints the small nonnegative fields of the `game` struct). -/
def natToDec (n : Nat) : List Nat :=
  (Nat.toDigits 10 n).map fun c => c.toNat

/-- `game_export` (io.c): the save file as the list of whitespace-separated
tokens the function prints — the magic `GA`, the four numeric fields, then
one formal coordinate per recorded move, re-derived from the move log in
order.  (the error return of `board_formal_coord` is ignored by the source; moves
recorded with in-range coordinates — the only ones the engine produces —
always convert, and the embedding substitutes the empty token on the dead
error path.) -/
def game_export (g : Game) : List (List Nat) :=
  [[71, 65], natToDec g.board.size, natToDec g.type, natToDec g.state,
    natToDec g.winner] ++
  g.moves.map fun mv => (board_formal_coord g.board.size mv.x mv.y).getD []

/-- The `%d` read of `game_import` applied to one token, with the required
set of admissible values: `none` models `exit(FILE_INPUT_ERR)`. -/
def importField (tok : List Nat) (ok : Nat → Bool) : Option Nat :=
  match scanInt tok with
  | none => none
  | some v => if 0 ≤ v ∧ ok v.toNat then some v.toNat else none

/-- The move-replay loop of `game_import` (io.c): parse each coordinate
token with `board_coord` (aborting the import on a parse failure) and feed it
to `game_place_stone`, which rebuilds the board and the move log. -/
def importMoves (g : Game) : List (List Nat) → Option Game
  | [] => some g
  | tok :: rest =>
    match board_coord g.board.size tok with
    | none => none
    | some p => importMoves (game_place_stone g p.1 p.2).2 rest

/-- `game_import` (io.c): check the magic token, read and validate the four
numeric fields, create a fresh game (whose new allocation carries its own
out-of-allocation bytes `junk`), overwrite its state and winner with the
stored values, then replay the stored coordinates through
`game_place_stone`. -/
def game_import (file : List (List Nat)) (junk : Nat → Nat) : Option Game :=
  match file with
  | magic :: t1 :: t2 :: t3 :: t4 :: coords =>
    if magic ≠ [71, 65] then none
    else match importField t1 (fun v => v == 15 || v == 17 || v == 19),
               importField t2 (fun v => v == GAME_FREESTYLE || v == GAME_RENJU),
               importField t3 (fun v => v == GAME_STATE_FORBIDDEN ||
                 v == GAME_STATE_STOPPED || v == GAME_STATE_FINISHED),
               importField t4 (fun v => v == EMPTY_INTERSECTION ||
                 v == BLACK_STONE || v == WHITE_STONE) with
    | some size, some ty, some st, some wn =>
      match game_create size ty junk with
      | none => none
      | some g0 => importMoves { g0 with state := st, winner := wn } coords
    | _, _, _, _ => none
  | _ => none

/-- Number of non-empty cells of the grid proper. -/
def stoneCount (b : Board) : Nat :=
  (List.range (b.size * b.size)).countP fun i => b.cells i != EMPTY_INTERSECTION

/-- A run of `len` consecutive stones of colour `s` in column `x` passing
through row `y` (vertical axis), with every cell on the grid. -/
def runThroughV (b : Board) (s x y len : Nat) : Prop :=
  ∃ j < b.size, j + len ≤ b.size ∧ j ≤ y ∧ y < j + len ∧
    ∀ k < len, board_get b x (j + k) = s

/-- A run of `len` consecutive stones of colour `s` in row `y` passing
through column `x` (horizontal axis). -/
def runThroughH (b : Board) (s x y len : Nat) : Prop :=
  ∃ j < b.size, j + len ≤ b.size ∧ j ≤ x ∧ x < j + len ∧
    ∀ k < len, board_get b (j + k) y = s

/-- A run of `len` consecutive stones of colour `s` on the down-right
diagonal through `(x, y)`, the cell `(x, y)` being the `t`-th of the run. -/
def runThroughDD (b : Board) (s x y len : Nat) : Prop :=
  ∃ t < len, t ≤ x ∧ t ≤ y ∧ x + len ≤ b.size + t ∧ y + len ≤ b.size + t ∧
    ∀ k < len, board_get b (x - t + k) (y - t + k) = s

/-- A run of `len` consecutive stones of colour `s` on the up-right diagonal
through `(x, y)`, the cell `(x, y)` being the `t`-th of the run counting
from its bottom-left end. -/
def runThroughDU (b : Board) (s x y len : Nat) : Prop :=
  ∃ t < len, t ≤ x ∧ y + t < b.size ∧ x + len ≤ b.size + t ∧ len ≤ y + t + 1 ∧
    ∀ k < len, board_get b (x - t + k) (y + t - k) = s

/-- A run of `len` consecutive stones of colour `s` through `(x, y)` on one
of the four axes. -/
def runThrough (b : Board) (s x y len : Nat) : Prop :=
  runThroughV b s x y len ∨ runThroughH b s x y len ∨
    runThroughDD b s x y len ∨ runThroughDU b s x y len

instance (b : Board) (s x y len : Nat) : Decidable (runThroughV b s x y len) := by
  unfold runThroughV; exact inferInstance

instance (b : Board) (s x y len : Nat) : Decidable (runThroughH b s x y len) := by
  unfold runThroughH; exact inferInstance

instance (b : Board) (s x y len : Nat) : Decidable (runThroughDD b s x y len) := by
  unfold runThroughDD; exact inferInstance

instance (b : Board) (s x y len : Nat) : Decidable (runThroughDU b s x y len) := by
  unfold runThroughDU; exact inferInstance

instance (b : Board) (s x y len : Nat) : Decidable (runThrough b s x y len) := by
  unfold runThrough; exact inferInstance

/-- Open four in the sense of the words of the specification (C1): a vertical run
of exactly four stones of colour `s` in column `x` starting at row `j`, the
two cells immediately beyond the two ends of the run being on the grid and Empty. -/
def specOpenFourV (b : Board) (s x j : Nat) : Prop :=
  1 ≤ j ∧ j + 4 < b.size ∧ (∀ k < 4, board_get b x (j + k) = s) ∧
    board_get b x (j - 1) = EMPTY_INTERSECTION ∧
    board_get b x (j + 4) = EMPTY_INTERSECTION

/-- Open four in the sense of the words of the specification (C1), horizontal
axis: a run of exactly four stones of colour `s` in row `y` starting at
column `j`, both flanking cells on the grid and Empty. -/
def specOpenFourH (b : Board) (s y j : Nat) : Prop :=
  1 ≤ j ∧ j + 4 < b.size ∧ (∀ k < 4, board_get b (j + k) y = s) ∧
    board_get b (j - 1) y = EMPTY_INTERSECTION ∧
    board_get b (j + 4) y = EMPTY_INTERSECTION

instance (b : Board) (s x j : Nat) : Decidable (specOpenFourV b s x j) := by
  unfold specOpenFourV; exact inferInstance

instance (b : Board) (s y j : Nat) : Decidable (specOpenFourH b s y j) := by
  unfold specOpenFourH; exact inferInstance

/-- The coordinate pairs a `scanRun` walk over `l` actually passes to
`board_get` before it stops: the scan reads every visited cell and stops
early only when the connection counter reaches `need`. -/
def scanReads (b : Board) (s need : Nat) : List (Nat × Nat) → Nat → List (Nat × Nat)
  | [], _ => []
  | p :: rest, conn =>
    p :: (if board_get b p.1 p.2 = s then
            (if conn + 1 = need then [] else scanReads b s need rest (conn + 1))
          else scanReads b s need rest 0)

/-- Games reachable from `g0` by an arbitrary sequence of `game_place_stone`
calls, with no restriction on the game state or the coordinates — the
reading of "any sequence of public-operation calls … in any game state" in
C9. -/
inductive ReachAny (g0 : Game) : Game → Prop
  | refl : ReachAny g0 g0
  | step (g : Game) (x y : Nat) : ReachAny g0 g → ReachAny g0 (game_place_stone g x y).2

/-- Games reachable from `g0` by `game_place_stone` calls that a
rule-respecting driver issues: each call is made while the game is in the
Playing state, with coordinates validated against the board size (as
`game_update` does through `board_coord` before calling the function). -/
inductive ReachPlay (g0 : Game) : Game → Prop
  | refl : ReachPlay g0 g0
  | step (g : Game) (x y : Nat) : ReachPlay g0 g → g.state = GAME_STATE_PLAYING →
      x < g.board.size → y < g.board.size → ReachPlay g0 (game_place_stone g x y).2

/-- Unspecified out-of-allocation bytes that never alias a stone or an empty
cell (an inert heap). -/
def junkInert : Nat → Nat := fun _ => 3

/-- Unspecified out-of-allocation bytes that all happen to equal
`BLACK_STONE` (a perfectly possible heap after earlier allocations). -/
def junkBlack : Nat → Nat := fun _ => 1

/-- Claim C7: calling `game_place_stone` on an already-occupied cell returns
`false` and leaves every component of the game — board grid, move log,
state, winner and the stone to move — unchanged. -/
theorem claim7_occupied (g : Game) (x y : Nat)
    (h : board_get g.board x y ≠ EMPTY_INTERSECTION) :
    game_place_stone g x y = (false, g) := by
  unfold game_place_stone
  rw [if_pos h]

/-- A game with a single White stone at `(3, 2)` (flat index 33), used to
instantiate `claim7_occupied`. -/
def occupiedGame : Game :=
  ⟨⟨15, fun i => if i = 33 then 2 else 0⟩, GAME_FREESTYLE, BLACK_STONE,
    GAME_STATE_PLAYING, EMPTY_INTERSECTION, [⟨3, 2, 2⟩]⟩

/-- Witness for C7: placing onto the occupied cell `(3, 2)` is rejected and
the game value is returned unchanged. -/
theorem claim7_witness :
    board_get occupiedGame.board 3 2 ≠ EMPTY_INTERSECTION ∧
      game_place_stone occupiedGame 3 2 = (false, occupiedGame) :=
  ⟨by decide, claim7_occupied occupiedGame 3 2 (by decide)⟩

/-- Claim C6: for every legal board size and every on-board coordinate pair,
parsing the formal coordinate produced by `board_formal_coord` succeeds and
returns the pair unchanged. -/
theorem claim6_roundtrip (s : Nat) (hs : s = 15 ∨ s = 17 ∨ s = 19) :
    ∀ x < s, ∀ y < s, (board_formal_coord s x y).bind (board_coord s) = some (x, y) := by
  rcases hs with h | h | h <;> subst h <;> decide

/-- Witness for C6: the round trip at size 15, coordinates `(2, 3)` (formal
coordinate `C12`). -/
theorem claim6_witness :
    (15 = 15 ∨ 15 = 17 ∨ 15 = 19) ∧ 2 < 15 ∧ 3 < 15 ∧
      (board_formal_coord 15 2 3).bind (board_coord 15) = some (2, 3) :=
  ⟨Or.inl rfl, by decide, by decide,
    claim6_roundtrip 15 (Or.inl rfl) 2 (by decide) 3 (by decide)⟩

/-- Claim C5, amended: the full-board draw check runs only on the
non-Renju-Black path of `game_place_stone` (Freestyle placements by either
colour, and Renju placements by White).  For such a placement onto an empty
cell that fills the board without producing an axis win, the game ends
`Finished` with winner `None`.  (A Renju placement by Black skips the draw
check entirely — see the counterexample.) -/
theorem claim5_amended (g : Game) (x y : Nat)
    (hty : ¬(g.type = GAME_RENJU ∧ g.stone = BLACK_STONE))
    (hw : g.winner = EMPTY_INTERSECTION)
    (hemp : board_get g.board x y = EMPTY_INTERSECTION)
    (hnw : anyWin (placedGame g x y) x y = false)
    (hfull : board_is_full (placedGame g x y).board = true) :
    (game_place_stone g x y).2.state = GAME_STATE_FINISHED ∧
      (game_place_stone g x y).2.winner = EMPTY_INTERSECTION := by
  have hne : ¬(board_get g.board x y ≠ EMPTY_INTERSECTION) := fun hc => hc hemp
  have hty2 : ¬((placedGame g x y).type = GAME_RENJU ∧
      (placedGame g x y).stone = BLACK_STONE) := by
    simpa [placedGame] using hty
  simp only [game_place_stone, if_neg hne, if_neg hty2, hnw, Bool.false_eq_true,
    if_false, hfull, if_true]
  simp [placedGame, hw]

/-- The one cell short of a full board in the double-period draw pattern:
Black exactly where `(y` even `∧ x%4 < 2) ∨ (y` odd `∧ x%4 ≥ 2)`, which
keeps every same-colour run on every axis at length ≤ 2; the cell
`(13, 14)` (flat 223, a Black cell of the pattern) is still empty.  The
position is reachable by 224 legal alternating moves. -/
def drawCells : Nat → Nat := fun i =>
  if i < 225 then
    if i = 223 then 0
    else
      if (i / 15 % 2 = 0 ∧ i % 15 % 4 < 2) ∨ (i / 15 % 2 = 1 ∧ 2 ≤ i % 15 % 4) then 1
      else 2
  else 3

/-- The Renju game one placement away from a full board, Black to move. -/
def renjuDrawGame : Game :=
  ⟨⟨15, drawCells⟩, GAME_RENJU, BLACK_STONE, GAME_STATE_PLAYING,
    EMPTY_INTERSECTION, []⟩

/-- Counterexample to C5 as stated: the Black placement at `(13, 14)` fills
the Renju board, no axis win is produced, yet the game stays in the Playing
state with no winner — the Renju-Black path of `game_place_stone` never
consults `board_is_full`, so no draw is declared. -/
theorem claim5_cex :
    renjuDrawGame.type = GAME_RENJU ∧
    renjuDrawGame.state = GAME_STATE_PLAYING ∧
    renjuDrawGame.winner = EMPTY_INTERSECTION ∧
    board_get renjuDrawGame.board 13 14 = EMPTY_INTERSECTION ∧
    board_is_full (placedGame renjuDrawGame 13 14).board = true ∧
    anyWin (placedGame renjuDrawGame 13 14) 13 14 = false ∧
    (game_place_stone renjuDrawGame 13 14).1 = true ∧
    (game_place_stone renjuDrawGame 13 14).2.state = GAME_STATE_PLAYING ∧
    (game_place_stone renjuDrawGame 13 14).2.winner = EMPTY_INTERSECTION := by
  decide

/-- The same near-full position as a Freestyle game. -/
def freestyleDrawGame : Game :=
  ⟨⟨15, drawCells⟩, GAME_FREESTYLE, BLACK_STONE, GAME_STATE_PLAYING,
    EMPTY_INTERSECTION, []⟩

/-- Witness for the amended C5: the same final placement in a Freestyle game
does end `Finished` with winner `None`. -/
theorem claim5_witness :
    ¬(freestyleDrawGame.type = GAME_RENJU ∧ freestyleDrawGame.stone = BLACK_STONE) ∧
    freestyleDrawGame.winner = EMPTY_INTERSECTION ∧
    board_get freestyleDrawGame.board 13 14 = EMPTY_INTERSECTION ∧
    anyWin (placedGame freestyleDrawGame 13 14) 13 14 = false ∧
    board_is_full (placedGame freestyleDrawGame 13 14).board = true ∧
    (game_place_stone freestyleDrawGame 13 14).2.state = GAME_STATE_FINISHED ∧
    (game_place_stone freestyleDrawGame 13 14).2.winner = EMPTY_INTERSECTION :=
  ⟨by decide, rfl, by decide, by decide, by decide,
    claim5_amended freestyleDrawGame 13 14 (by decide) rfl (by decide) (by decide)
      (by decide)⟩

/-- The Renju position reached by the 12 legal alternating moves below:
Black holds `(7,5) (7,6) (7,7)` in column 7 and `(8,8) (9,8) (10,8)` in row
8, White holds six stones far away.  Black to move at `(7,8)`. -/
def doubleFourGame : Game :=
  applyMoves (mkGame (mkBoard 15 junkInert) GAME_RENJU)
    [(7,5),(0,0),(7,6),(0,1),(7,7),(0,2),(8,8),(0,3),(9,8),(1,0),(10,8),(1,1)]

/-- Evaluation of the C1 failing input: the Black placement at `(7,8)`
simultaneously completes a vertical open four (column 7, rows 5–8, both
flanks `(7,4)`/`(7,9)` Empty) and a horizontal open four (row 8, columns
7–10, both flanks `(6,8)`/`(11,8)` Empty) with no five-in-a-row — the
double-four condition of the claim on two different axes.  The code nevertheless
counts only one open four, because its vertical pass tests the sideways
cells `(x+1, i)` and `(x-4, i)` instead of the cells beyond the ends of the run,
and `(8,8)` holds a Black stone; the game stays in the Playing state instead
of ending `Forbidden` for White. -/
theorem claim1_eval :
    doubleFourGame.type = GAME_RENJU ∧
    doubleFourGame.stone = BLACK_STONE ∧
    doubleFourGame.state = GAME_STATE_PLAYING ∧
    board_get doubleFourGame.board 7 8 = EMPTY_INTERSECTION ∧
    specOpenFourV (placedGame doubleFourGame 7 8).board BLACK_STONE 7 5 ∧
    specOpenFourH (placedGame doubleFourGame 7 8).board BLACK_STONE 8 7 ∧
    ¬ runThrough (placedGame doubleFourGame 7 8).board BLACK_STONE 7 8 5 ∧
    openFoursCount (placedGame doubleFourGame 7 8).board BLACK_STONE 7 8 = 1 ∧
    (game_place_stone doubleFourGame 7 8).2.state = GAME_STATE_PLAYING ∧
    (game_place_stone doubleFourGame 7 8).2.winner = EMPTY_INTERSECTION := by
  decide

/-- A fresh Freestyle game whose bytes just past the 225-byte board
allocation all happen to equal `BLACK_STONE`. -/
def freshBlackHeapGame : Game :=
  mkGame (mkBoard 15 junkBlack) GAME_FREESTYLE

/-- Evaluation of the C3 failing input: the very first Black placement at
`(0, 0)` creates a run of length 1 only (a single stone on the board, no
five-in-a-row through the placed cell), yet `game_place_stone` declares a
finished game won by Black.  the second loop guard `y >= 0` of `diagonalUpWin` is
always true for the `unsigned char` coordinate, so after `y` wraps past the
top edge the scan keeps reading bytes beyond the board allocation; those
bytes equal `BLACK_STONE` here and are counted as connections. -/
theorem claim3_eval :
    board_get freshBlackHeapGame.board 0 0 = EMPTY_INTERSECTION ∧
    stoneCount (placedGame freshBlackHeapGame 0 0).board = 1 ∧
    ¬ runThrough (placedGame freshBlackHeapGame 0 0).board BLACK_STONE 0 0 5 ∧
    (game_place_stone freshBlackHeapGame 0 0).1 = true ∧
    (game_place_stone freshBlackHeapGame 0 0).2.state = GAME_STATE_FINISHED ∧
    (game_place_stone freshBlackHeapGame 0 0).2.winner = BLACK_STONE := by
  decide

/-- Every coordinate pair a scan actually reads is on its scan path. -/
theorem scanReads_subset (b : Board) (s need : Nat) :
    ∀ (l : List (Nat × Nat)) (conn : Nat) (p : Nat × Nat),
      p ∈ scanReads b s need l conn → p ∈ l := by
  intro l
  induction l with
  | nil => intro conn p h; simp [scanReads] at h
  | cons q t ih =>
    intro conn p h
    rw [scanReads] at h
    rcases List.mem_cons.mp h with h1 | h2
    · exact List.mem_cons.mpr (Or.inl h1)
    · split at h2
      · split at h2
        · simp at h2
        · exact List.mem_cons.mpr (Or.inr (ih _ p h2))
      · exact List.mem_cons.mpr (Or.inr (ih _ p h2))

/-- Claim C10, amended: for a placement at in-bounds coordinates, the
vertical, horizontal and diagonal-down line scans pass only in-bounds
coordinates to `board_get`; the diagonal-up scan does not share this
property (see the counterexample), because its `unsigned char` row
coordinate can wrap past the top edge or start one past the bottom edge. -/
theorem claim10_amended (b : Board) (s need conn x y : Nat)
    (hx : x < b.size) (hy : y < b.size) :
    (∀ p ∈ scanReads b s need (vertCoords b.size x) conn, p.1 < b.size ∧ p.2 < b.size) ∧
    (∀ p ∈ scanReads b s need (horizCoords b.size y) conn, p.1 < b.size ∧ p.2 < b.size) ∧
    (∀ p ∈ scanReads b s need (ddCoords b.size x y) conn, p.1 < b.size ∧ p.2 < b.size) := by
  refine ⟨?_, ?_, ?_⟩ <;> intro p hp <;>
    have hm := scanReads_subset b s need _ conn p hp
  · simp only [vertCoords, List.mem_map, List.mem_range] at hm
    obtain ⟨i, hi, rfl⟩ := hm
    exact ⟨hx, hi⟩
  · simp only [horizCoords, List.mem_map, List.mem_range] at hm
    obtain ⟨i, hi, rfl⟩ := hm
    exact ⟨hi, hy⟩
  · simp only [ddCoords, List.mem_map, List.mem_range] at hm
    obtain ⟨k, hk, rfl⟩ := hm
    constructor <;> simp only <;> omega

/-- The board state at which the rule scans run for a first placement at
`(0, 0)` on a fresh 15×15 Freestyle board with inert heap bytes. -/
def firstMoveGame : Game :=
  placedGame (mkGame (mkBoard 15 junkInert) GAME_FREESTYLE) 0 0

/-- Counterexample to C10 as stated: for the in-bounds first placement at
`(0, 0)`, the first three win scans fail (so `game_place_stone` reaches
`diagonalUpWin`), and the diagonal-up scan passes the coordinate pair
`(1, 255)` — the wrapped `unsigned char` row one step past the top edge —
to `board_get`, which is far outside the `[0, 15)` range the claim
asserts. -/
theorem claim10_cex :
    board_get (mkGame (mkBoard 15 junkInert) GAME_FREESTYLE).board 0 0 =
      EMPTY_INTERSECTION ∧
    verticalWin firstMoveGame 0 = false ∧
    horizontalWin firstMoveGame 0 = false ∧
    diagonalDownWin firstMoveGame 0 0 = false ∧
    ((1, 255) ∈ scanReads firstMoveGame.board firstMoveGame.stone 5
      (duCoords firstMoveGame.board.size 0 0) 0) ∧
    ¬((255 : Nat) < firstMoveGame.board.size) := by
  decide

/-- Witness for the amended C10 at the fresh 15×15 board, `s = BLACK_STONE`,
placement coordinates `(0, 0)`. -/
theorem claim10_witness :
    (0 < (mkBoard 15 junkInert).size) ∧
    (∀ p ∈ scanReads (mkBoard 15 junkInert) BLACK_STONE 5
        (vertCoords (mkBoard 15 junkInert).size 0) 0,
      p.1 < (mkBoard 15 junkInert).size ∧ p.2 < (mkBoard 15 junkInert).size) :=
  ⟨by decide,
    (claim10_amended (mkBoard 15 junkInert) BLACK_STONE 5 0 0 0 (by decide)
      (by decide)).1⟩

/-- If a scan walk starts inside a block of matching cells long enough to
push the counter to `need`, it reports success. -/
theorem scanRun_true_zero (s need : Nat) :
    ∀ (l : List Nat) (conn j : Nat), conn < need → need ≤ conn + j → j ≤ l.length →
      (∀ k < j, l.getD k 0 = s) → (scanRun s need l conn).1 = true := by
  intro l
  induction l with
  | nil =>
    intro conn j hc hnj hj _
    simp only [List.length_nil, Nat.le_zero] at hj
    exact absurd hc (by omega)
  | cons c t ih =>
    intro conn j hc hnj hj hrun
    have hcs : c = s := by
      have := hrun 0 (by omega)
      simpa using this
    rw [scanRun, if_pos hcs]
    by_cases h4 : conn + 1 = need
    · rw [if_pos h4]
    · rw [if_neg h4]
      apply ih (conn + 1) (j - 1) (by omega) (by omega)
        (by simp only [List.length_cons] at hj; omega)
      intro k hk
      have hv := hrun (k + 1) (by omega)
      rwa [List.getD_cons_succ] at hv

/-- If `need` consecutive cells starting at position `i` of the scan list
all match, the scan reports success, whatever the incoming counter below
`need` is. -/
theorem scanRun_true_at (s need : Nat) :
    ∀ (l : List Nat) (i conn : Nat), conn < need → i + need ≤ l.length →
      (∀ k < need, l.getD (i + k) 0 = s) → (scanRun s need l conn).1 = true := by
  intro l
  induction l with
  | nil =>
    intro i conn hc hlen _
    simp only [List.length_nil, Nat.le_zero] at hlen
    exact absurd hc (by omega)
  | cons c t ih =>
    intro i conn hc hlen hrun
    match i with
    | 0 =>
      apply scanRun_true_zero s need (c :: t) conn need hc (by omega) (by simpa using hlen)
      intro k hk
      have := hrun k hk
      simpa using this
    | Nat.succ i =>
      rw [scanRun]
      by_cases hcs : c = s
      · rw [if_pos hcs]
        by_cases h4 : conn + 1 = need
        · rw [if_pos h4]
        · rw [if_neg h4]
          apply ih i (conn + 1) (by omega) (by simp only [List.length_cons] at hlen; omega)
          intro k hk
          have hv := hrun k hk
          have e : i + 1 + k = (i + k) + 1 := by omega
          rw [e, List.getD_cons_succ] at hv
          exact hv
      · rw [if_neg hcs]
        apply ih i 0 (by omega) (by simp only [List.length_cons] at hlen; omega)
        intro k hk
        have hv := hrun k hk
        have e : i + 1 + k = (i + k) + 1 := by omega
        rw [e, List.getD_cons_succ] at hv
        exact hv

/-- A failed scan leaves its connection counter below `need` (used for the
counter `overline` carries from one axis pass into the next). -/
theorem scanRun_false_conn (s need : Nat) :
    ∀ (l : List Nat) (conn : Nat), conn < need → (scanRun s need l conn).1 = false →
      (scanRun s need l conn).2 < need := by
  intro l
  induction l with
  | nil => intro conn hc _; simpa [scanRun] using hc
  | cons c t ih =>
    intro conn hc hf
    rw [scanRun] at hf ⊢
    by_cases hcs : c = s
    · rw [if_pos hcs] at hf ⊢
      by_cases h4 : conn + 1 = need
      · rw [if_pos h4] at hf; exact absurd hf (by simp)
      · rw [if_neg h4] at hf ⊢; exact ih (conn + 1) (by omega) hf
    · rw [if_neg hcs] at hf ⊢; exact ih 0 (by omega) hf

/-- Reading the scan-order cell list at a position below the range bound
yields the `board_get` of the corresponding coordinate pair. -/
theorem cellsAlong_getD (b : Board) (f : Nat → Nat × Nat) (n i : Nat) (h : i < n) :
    (cellsAlong b ((List.range n).map f)).getD i 0 = board_get b (f i).1 (f i).2 := by
  rw [cellsAlong, List.map_map]
  rw [List.getD_eq_getElem _ _ (by simpa using h)]
  simp

/-- A vertical run through the placed cell makes the column scan succeed. -/
theorem scanVert_true (b : Board) (s x y len need conn : Nat)
    (h : runThroughV b s x y len) (hc : conn < need) (hn : need ≤ len) :
    (scanRun s need (cellsAlong b (vertCoords b.size x)) conn).1 = true := by
  obtain ⟨j, hjs, hjlen, hjy, hyj, hrun⟩ := h
  apply scanRun_true_at s need _ j conn hc
  · simp only [cellsAlong, vertCoords, List.length_map, List.length_range]
    omega
  · intro k hk
    rw [vertCoords, cellsAlong_getD b _ b.size (j + k) (by omega)]
    simpa using hrun k (by omega)

/-- A horizontal run through the placed cell makes the row scan succeed. -/
theorem scanHoriz_true (b : Board) (s x y len need conn : Nat)
    (h : runThroughH b s x y len) (hc : conn < need) (hn : need ≤ len) :
    (scanRun s need (cellsAlong b (horizCoords b.size y)) conn).1 = true := by
  obtain ⟨j, hjs, hjlen, hjx, hxj, hrun⟩ := h
  apply scanRun_true_at s need _ j conn hc
  · simp only [cellsAlong, horizCoords, List.length_map, List.length_range]
    omega
  · intro k hk
    rw [horizCoords, cellsAlong_getD b _ b.size (j + k) (by omega)]
    simpa using hrun k (by omega)

/-- A down-right diagonal run through the placed cell makes the
diagonal-down scan succeed. -/
theorem scanDD_true (b : Board) (s x y len need conn : Nat)
    (h : runThroughDD b s x y len) (hc : conn < need) (hn : need ≤ len) :
    (scanRun s need (cellsAlong b (ddCoords b.size x y)) conn).1 = true := by
  obtain ⟨t, htlen, htx, hty, hxb, hyb, hrun⟩ := h
  apply scanRun_true_at s need _ (min x y - t) conn hc
  · simp only [cellsAlong, ddCoords, List.length_map, List.length_range]
    omega
  · intro k hk
    have hidx : min x y - t + k < b.size - (max x y - min x y) := by omega
    simp only [ddCoords]
    rw [cellsAlong_getD b _ _ _ hidx]
    simp only
    have e1 : x - min x y + (min x y - t + k) = x - t + k := by omega
    have e2 : y - min x y + (min x y - t + k) = y - t + k := by omega
    rw [e1, e2]
    exact hrun k (by omega)

/-- An up-right diagonal run through the placed cell makes the diagonal-up
scan succeed: the cells of the run sit on the in-grid stretch of the scan path,
before any wrapped coordinates. -/
theorem scanDU_true (b : Board) (s x y len need conn : Nat) (hsz : b.size ≤ 255)
    (h : runThroughDU b s x y len) (hc : conn < need) (hn : need ≤ len) :
    (scanRun s need (cellsAlong b (duCoords b.size x y)) conn).1 = true := by
  obtain ⟨t, htlen, htx, htyb, hxb, hlyt, hrun⟩ := h
  apply scanRun_true_at s need _ (min x (b.size - y) - t) conn hc
  · simp only [cellsAlong, duCoords, List.length_map, List.length_range]
    omega
  · intro k hk
    have hidx : min x (b.size - y) - t + k < b.size - (x - min x (b.size - y)) := by
      omega
    simp only [duCoords]
    rw [cellsAlong_getD b _ _ _ hidx]
    simp only
    have e1 : x - min x (b.size - y) + (min x (b.size - y) - t + k) = x - t + k := by
      omega
    have e2 : ucSub (y + min x (b.size - y)) (min x (b.size - y) - t + k) = y + t - k := by
      unfold ucSub; omega
    rw [e1, e2]
    exact hrun k (by omega)

/-- A run of at least five through the placed cell on any axis makes the
four-way win test of `game_place_stone`/`doubleOpenFours` succeed. -/
theorem anyWin_of_run (g : Game) (x y len : Nat) (hsz : g.board.size ≤ 255)
    (h : runThrough g.board g.stone x y len) (h5 : 5 ≤ len) :
    anyWin g x y = true := by
  unfold anyWin verticalWin horizontalWin diagonalDownWin diagonalUpWin
  rcases h with hV | hH | hDD | hDU
  · simp [scanVert_true g.board g.stone x y len 5 0 hV (by omega) h5]
  · simp [scanHoriz_true g.board g.stone x y len 5 0 hH (by omega) h5]
  · simp [scanDD_true g.board g.stone x y len 5 0 hDD (by omega) h5]
  · simp [scanDU_true g.board g.stone x y len 5 0 hsz hDU (by omega) h5]

/-- A run of six through the placed cell on any axis makes `overline`
succeed, despite the counter carried between its later passes (the carried
counter is below 6 whenever the earlier pass failed, so `scanRun_true_at`
applies). -/
theorem overline_of_run6 (g : Game) (x y : Nat) (hsz : g.board.size ≤ 255)
    (h : runThrough g.board g.stone x y 6) : overline g x y = true := by
  unfold overline
  simp only
  by_cases h1 : (scanRun g.stone 6 (cellsAlong g.board (vertCoords g.board.size x)) 0).1
  · simp [h1]
  · rw [if_neg (by simpa using h1)]
    by_cases h2 :
        (scanRun g.stone 6 (cellsAlong g.board (horizCoords g.board.size y)) 0).1
    · simp [h2]
    · rw [if_neg (by simpa using h2)]
      have hc2 : (scanRun g.stone 6
          (cellsAlong g.board (horizCoords g.board.size y)) 0).2 < 6 :=
        scanRun_false_conn g.stone 6 _ 0 (by omega) (by simpa using h2)
      by_cases h3 : (scanRun g.stone 6 (cellsAlong g.board (ddCoords g.board.size x y))
          (scanRun g.stone 6 (cellsAlong g.board (horizCoords g.board.size y)) 0).2).1
      · simp [h3]
      · rw [if_neg (by simpa using h3)]
        have hc3 : (scanRun g.stone 6 (cellsAlong g.board (ddCoords g.board.size x y))
            (scanRun g.stone 6 (cellsAlong g.board (horizCoords g.board.size y)) 0).2).2 < 6 :=
          scanRun_false_conn g.stone 6 _ _ hc2 (by simpa using h3)
        rcases h with hV | hH | hDD | hDU
        · exact absurd (scanVert_true g.board g.stone x y 6 6 0 hV (by omega) le_rfl)
            (by simpa using h1)
        · exact absurd (scanHoriz_true g.board g.stone x y 6 6 0 hH (by omega) le_rfl)
            (by simpa using h2)
        · exact absurd (scanDD_true g.board g.stone x y 6 6 _ hDD hc2 le_rfl)
            (by simpa using h3)
        · exact scanDU_true g.board g.stone x y 6 6 _ hsz hDU hc3 le_rfl

/-- Claim C4: in a Renju game, a Black placement onto an empty cell that
completes a run of 6 consecutive Black stones on one of the four axes ends
the game with `state = Forbidden` and `winner = White` rather than a Black
win: the six-run makes the line-win check inside `doubleOpenFours` fire
(`winner = Black`, `state = Finished`), which is exactly the condition under
which `game_place_stone` runs the `overline` check, and the overline verdict
then overrides the outcome to `winner = White`, `state = Forbidden`. -/
theorem claim4_overline (g : Game) (x y : Nat)
    (hsz : g.board.size ≤ 255)
    (hty : g.type = GAME_RENJU) (hst : g.stone = BLACK_STONE)
    (hemp : board_get g.board x y = EMPTY_INTERSECTION)
    (hrun : runThrough (placedGame g x y).board BLACK_STONE x y 6) :
    (game_place_stone g x y).1 = true ∧
    (game_place_stone g x y).2.state = GAME_STATE_FORBIDDEN ∧
    (game_place_stone g x y).2.winner = WHITE_STONE := by
  have hne : ¬(board_get g.board x y ≠ EMPTY_INTERSECTION) := fun hc => hc hemp
  have hg1s : (placedGame g x y).stone = BLACK_STONE := hst
  have hg1t : (placedGame g x y).type = GAME_RENJU := hty
  have hsz1 : (placedGame g x y).board.size ≤ 255 := hsz
  have hrun1 : runThrough (placedGame g x y).board (placedGame g x y).stone x y 6 := by
    rw [hg1s]; exact hrun
  have hwin : anyWin (placedGame g x y) x y = true :=
    anyWin_of_run (placedGame g x y) x y 6 hsz1 hrun1 (by omega)
  have hb : (doubleOpenFours (placedGame g x y) x y).board = (placedGame g x y).board := by
    unfold doubleOpenFours
    rw [if_pos hwin]
  have hs : (doubleOpenFours (placedGame g x y) x y).stone = BLACK_STONE := by
    unfold doubleOpenFours
    rw [if_pos hwin]
    exact hg1s
  have hw2 : (doubleOpenFours (placedGame g x y) x y).winner = BLACK_STONE := by
    unfold doubleOpenFours
    rw [if_pos hwin]
    exact hg1s
  have hov : overline (doubleOpenFours (placedGame g x y) x y) x y = true := by
    apply overline_of_run6 _ x y (by rw [hb]; exact hsz1)
    rw [hb, hs]
    exact hrun
  simp only [game_place_stone, if_neg hne]
  rw [if_pos ⟨hg1t, hg1s⟩, if_pos ⟨hw2, hov⟩]
  exact ⟨rfl, rfl, rfl⟩

/-- The Renju position reached by the 10 legal alternating moves below:
Black holds `(7,4) (7,5) (7,6) (7,7)` and `(7,9)` in column 7, White five
stones far away; Black to move at `(7,8)`, which completes six in a column. -/
def overlineGame : Game :=
  applyMoves (mkGame (mkBoard 15 junkInert) GAME_RENJU)
    [(7,4),(0,0),(7,5),(0,1),(7,6),(0,2),(7,7),(0,3),(7,9),(1,0)]

/-- Witness for C4: the Black placement at `(7,8)` completes rows 4–9 of
column 7 and the game ends `Forbidden` in favour of White. -/
theorem claim4_witness :
    overlineGame.board.size ≤ 255 ∧
    overlineGame.type = GAME_RENJU ∧
    overlineGame.stone = BLACK_STONE ∧
    board_get overlineGame.board 7 8 = EMPTY_INTERSECTION ∧
    runThrough (placedGame overlineGame 7 8).board BLACK_STONE 7 8 6 ∧
    (game_place_stone overlineGame 7 8).1 = true ∧
    (game_place_stone overlineGame 7 8).2.state = GAME_STATE_FORBIDDEN ∧
    (game_place_stone overlineGame 7 8).2.winner = WHITE_STONE :=
  ⟨by decide, by decide, by decide, by decide, by decide,
    claim4_overline overlineGame 7 8 (by decide) (by decide) (by decide) (by decide)
      (by decide)⟩

/-- Flipping one zero entry of the store to a nonzero value increases the
count of nonzero grid entries by one. -/
theorem countP_set_index (n j st : Nat) (f : Nat → Nat) (hj : j < n) (h0 : f j = 0)
    (hst : st ≠ 0) :
    (List.range n).countP (fun i => (if i = j then st else f i) != 0) =
      (List.range n).countP (fun i => f i != 0) + 1 := by
  induction n with
  | zero => exact absurd hj (by omega)
  | succ n ih =>
    rw [List.range_succ, List.countP_append, List.countP_append]
    by_cases hjn : j = n
    · subst hjn
      have hc : (List.range j).countP (fun i => (if i = j then st else f i) != 0) =
          (List.range j).countP (fun i => f i != 0) := by
        apply List.countP_congr
        intro i hi
        have hij : i ≠ j := by
          simp only [List.mem_range] at hi
          omega
        simp [hij]
      simp [List.countP_cons, hc, h0, hst]
    · have hjn2 : j < n := by omega
      rw [ih hjn2]
      have he : ((if n = j then st else f n) != 0) = (f n != 0) := by
        simp [Ne.symm hjn]
      simp only [List.countP_cons, List.countP_nil, he]
      omega

/-- Writing a stone onto an empty in-grid cell increases `stoneCount` by
one. -/
theorem stoneCount_set (b : Board) (x y st : Nat) (hx : x < b.size) (hy : y < b.size)
    (h0 : b.cells (y * b.size + x) = 0) (hst : st ≠ 0) :
    stoneCount (board_set b x y st) = stoneCount b + 1 := by
  have hj : y * b.size + x < b.size * b.size := by
    calc y * b.size + x < y * b.size + b.size := by omega
      _ = (y + 1) * b.size := by ring
      _ ≤ b.size * b.size := Nat.mul_le_mul_right _ hy
  unfold stoneCount board_set
  simp only [EMPTY_INTERSECTION]
  exact countP_set_index (b.size * b.size) (y * b.size + x) st b.cells hj h0 hst

/-- `doubleOpenFours` only ever touches the winner and state fields. -/
theorem doubleOpenFours_parts (g : Game) (x y : Nat) :
    (doubleOpenFours g x y).board = g.board ∧ (doubleOpenFours g x y).moves = g.moves ∧
      (doubleOpenFours g x y).stone = g.stone := by
  unfold doubleOpenFours
  split
  · exact ⟨rfl, rfl, rfl⟩
  · split
    · exact ⟨rfl, rfl, rfl⟩
    · exact ⟨rfl, rfl, rfl⟩

/-- An accepted placement appends exactly one move, writes exactly one board
cell, and — whenever the game is still in the Playing state afterwards — has
handed the turn to the other colour. -/
theorem place_stone_step (g : Game) (x y : Nat)
    (hemp : board_get g.board x y = EMPTY_INTERSECTION) :
    (game_place_stone g x y).2.board = board_set g.board x y g.stone ∧
    (game_place_stone g x y).2.moves = g.moves ++ [⟨x, y, g.stone⟩] ∧
    ((game_place_stone g x y).2.state = GAME_STATE_PLAYING →
      (game_place_stone g x y).2.stone =
        if g.stone = BLACK_STONE then WHITE_STONE else BLACK_STONE) := by
  have hne : ¬(board_get g.board x y ≠ EMPTY_INTERSECTION) := fun hc => hc hemp
  obtain ⟨hb, hm, hs⟩ := doubleOpenFours_parts (placedGame g x y) x y
  simp only [game_place_stone, if_neg hne]
  by_cases hrb : (placedGame g x y).type = GAME_RENJU ∧ (placedGame g x y).stone = BLACK_STONE
  · rw [if_pos hrb]
    by_cases hov : (doubleOpenFours (placedGame g x y) x y).winner = BLACK_STONE ∧
        overline (doubleOpenFours (placedGame g x y) x y) x y = true
    · rw [if_pos hov]
      refine ⟨hb, hm, fun h => absurd h ?_⟩
      simp [GAME_STATE_FORBIDDEN, GAME_STATE_PLAYING]
    · rw [if_neg hov]
      refine ⟨hb, hm, fun _ => ?_⟩
      have hst : g.stone = BLACK_STONE := hrb.2
      simp [hst, WHITE_STONE]
  · rw [if_neg hrb]
    by_cases hw : anyWin (placedGame g x y) x y = true
    · rw [if_pos hw]
      refine ⟨rfl, rfl, fun h => absurd h ?_⟩
      simp [GAME_STATE_FINISHED, GAME_STATE_PLAYING]
    · rw [if_neg hw]
      by_cases hf : board_is_full (placedGame g x y).board = true
      · rw [if_pos hf]
        refine ⟨rfl, rfl, fun h => absurd h ?_⟩
        simp [GAME_STATE_FINISHED, GAME_STATE_PLAYING]
      · rw [if_neg hf]
        exact ⟨rfl, rfl, fun _ => rfl⟩

/-- The move-log invariant along rule-respecting play: log length equals the
number of stones on the grid, the move at index `i` carries the Black stone
for even `i` and the White one for odd `i`, and while the game is still Playing
the stone to move matches the parity of the log length. -/
theorem reachPlay_inv (s t : Nat) (junk : Nat → Nat) (g0 g : Game)
    (hg0 : game_create s t junk = some g0) (hr : ReachPlay g0 g) :
    g.moves.length = stoneCount g.board ∧
    (∀ i < g.moves.length, (g.moves.getD i ⟨0, 0, 0⟩).stone =
      if i % 2 = 0 then BLACK_STONE else WHITE_STONE) ∧
    (g.state = GAME_STATE_PLAYING →
      g.stone = if g.moves.length % 2 = 0 then BLACK_STONE else WHITE_STONE) := by
  induction hr with
  | refl =>
    have hg : g0 = mkGame (mkBoard s junk) t := by
      unfold game_create board_create at hg0
      by_cases hvs : s = 15 ∨ s = 17 ∨ s = 19
      · rw [if_pos hvs] at hg0
        simpa using hg0.symm
      · rw [if_neg hvs] at hg0
        simp at hg0
    subst hg
    refine ⟨?_, ?_, ?_⟩
    · show 0 = stoneCount (mkBoard s junk)
      unfold stoneCount
      rw [eq_comm, List.countP_eq_zero]
      intro a ha
      have ha2 : a < s * s := by simpa [mkBoard] using ha
      simp [mkBoard, EMPTY_INTERSECTION, ha2]
    · intro i hi
      exact absurd hi (by simp [mkGame])
    · intro _
      rfl
  | step g x y hr hpl hx hy ih =>
    obtain ⟨ih1, ih2, ih3⟩ := ih
    by_cases hemp : board_get g.board x y = EMPTY_INTERSECTION
    · obtain ⟨hb, hm, hs⟩ := place_stone_step g x y hemp
      have hstone : g.stone = if g.moves.length % 2 = 0 then BLACK_STONE else WHITE_STONE :=
        ih3 hpl
      have hstne : g.stone ≠ 0 := by
        rw [hstone]
        split <;> simp [BLACK_STONE, WHITE_STONE]
      refine ⟨?_, ?_, ?_⟩
      · rw [hb, hm, stoneCount_set g.board x y g.stone hx hy hemp hstne]
        simpa using ih1
      · intro i hi
        rw [hm] at hi ⊢
        simp only [List.length_append, List.length_cons, List.length_nil] at hi
        by_cases hilt : i < g.moves.length
        · rw [List.getD_append _ _ _ _ hilt]
          exact ih2 i hilt
        · have hieq : i = g.moves.length := by omega
          subst hieq
          rw [List.getD_append_right _ _ _ _ (le_refl _), Nat.sub_self]
          simpa using hstone
      · intro hst2
        rw [hm, hs hst2, hstone]
        simp only [List.length_append, List.length_cons, List.length_nil]
        by_cases hp : g.moves.length % 2 = 0
        · have h1 : (g.moves.length + 1) % 2 = 1 := by omega
          simp [hp, h1, BLACK_STONE, WHITE_STONE]
        · have h1 : (g.moves.length + 1) % 2 = 0 := by omega
          simp [hp, h1, BLACK_STONE, WHITE_STONE]
    · have hrej : (game_place_stone g x y).2 = g := by
        unfold game_place_stone
        rw [if_pos hemp]
      rw [hrej]
      exact ⟨ih1, ih2, ih3⟩

/-- Claim C9, amended: for every game reachable from a fresh game by
placements issued the way the drivers issue them — in the Playing state,
with coordinates validated against the board size — the length of the move log
equals the number of stones on the grid and the move at index `i` carries
the Black stone for even `i` and the White one for odd `i`.  (Without the
Playing-state restriction the alternation fails: `game_place_stone` checks
no state and does not hand the turn over after a win — see the
counterexample.) -/
theorem claim9_amended (s t : Nat) (junk : Nat → Nat) (g0 g : Game)
    (hg0 : game_create s t junk = some g0) (hr : ReachPlay g0 g) :
    g.moves.length = stoneCount g.board ∧
    ∀ i < g.moves.length, (g.moves.getD i ⟨0, 0, 0⟩).stone =
      if i % 2 = 0 then BLACK_STONE else WHITE_STONE := by
  obtain ⟨h1, h2, _⟩ := reachPlay_inv s t junk g0 g hg0 hr
  exact ⟨h1, h2⟩

/-- A fresh 15×15 Freestyle game over an inert heap. -/
def freshFreestyleGame : Game := mkGame (mkBoard 15 junkInert) GAME_FREESTYLE

/-- `freshFreestyleGame` after one placement at `(7, 7)` in the Playing
state. -/
def oneMoveGame : Game := (game_place_stone freshFreestyleGame 7 7).2

/-- Witness for the amended C9 after a single legal placement. -/
theorem claim9_witness :
    game_create 15 GAME_FREESTYLE junkInert = some freshFreestyleGame ∧
    ReachPlay freshFreestyleGame oneMoveGame ∧
    (oneMoveGame.moves.length = stoneCount oneMoveGame.board ∧
      ∀ i < oneMoveGame.moves.length, (oneMoveGame.moves.getD i ⟨0, 0, 0⟩).stone =
        if i % 2 = 0 then BLACK_STONE else WHITE_STONE) := by
  have hc : game_create 15 GAME_FREESTYLE junkInert = some freshFreestyleGame := by
    unfold game_create board_create freshFreestyleGame
    rw [if_pos (Or.inl rfl)]
    rfl
  have hr : ReachPlay freshFreestyleGame oneMoveGame :=
    ReachPlay.step freshFreestyleGame 7 7 ReachPlay.refl rfl (by decide) (by decide)
  exact ⟨hc, hr, claim9_amended 15 GAME_FREESTYLE junkInert freshFreestyleGame
    oneMoveGame hc hr⟩

/-- Every fold of placements is a reachable game in the unrestricted
sense. -/
theorem reachAny_applyMoves :
    ∀ (ms : List (Nat × Nat)) (g0 g : Game), ReachAny g0 g →
      ReachAny g0 (applyMoves g ms) := by
  intro ms
  induction ms with
  | nil => intro g0 g h; simpa [applyMoves] using h
  | cons m rest ih =>
    intro g0 g h
    have hstep : ReachAny g0 (game_place_stone g m.1 m.2).2 := ReachAny.step g m.1 m.2 h
    simpa [applyMoves] using ih g0 _ hstep

/-- The game after Black wins on row 0 (move 9 of the sequence) and one
further call places an extra stone at `(10, 10)` — `game_place_stone`
accepts it although the game is already Finished, and the turn was never
handed over after the win. -/
def wonThenExtraGame : Game :=
  applyMoves freshFreestyleGame
    [(0,0),(0,14),(1,0),(1,14),(2,0),(2,14),(3,0),(3,14),(4,0),(10,10)]

/-- Counterexample to C9 as stated: `wonThenExtraGame` is reachable from a
fresh game by `placeStone` calls alone (the last one made in the Finished
state), its move log has 10 entries, and the move at the odd index 9 was
made by Black, not White — strict alternation fails once a placement is
accepted in a non-Playing state. -/
theorem claim9_cex :
    ReachAny freshFreestyleGame wonThenExtraGame ∧
    wonThenExtraGame.moves.length = 10 ∧
    (wonThenExtraGame.moves.getD 9 ⟨0, 0, 0⟩).stone = BLACK_STONE ∧
    ¬((wonThenExtraGame.moves.getD 9 ⟨0, 0, 0⟩).stone =
        if 9 % 2 = 0 then BLACK_STONE else WHITE_STONE) :=
  ⟨reachAny_applyMoves _ freshFreestyleGame freshFreestyleGame ReachAny.refl,
    by decide, by decide, by decide⟩

/-- A complete legal Renju game, won by Black: the 21 alternating moves
below give Black `(0,0) (0,1) (0,2) (0,3)` and finally `(0,4)` in column 0
(the winning five), plus `(1,4) (2,5)` on the diagonal through `(6,9)` and
`(12,9) (13,9) (14,9)` at the right end of row 9; the ten White stones sit in
columns 8, 10 and 12.  No move triggers any rule on the way; the final
placement ends the game `Finished`, winner Black. -/
def exportedRenjuGame : Game :=
  applyMoves (mkGame (mkBoard 15 junkInert) GAME_RENJU)
    [(0,0),(8,0),(0,1),(8,1),(0,2),(8,2),(0,3),(8,3),(1,4),(10,0),
     (2,5),(10,1),(12,9),(10,2),(13,9),(10,3),(14,9),(12,0),(6,9),(12,1),(0,4)]

/-- Evaluation of the C2 failing input: the finished game above exports and
re-imports into a game that does NOT match it — the import pre-sets
`winner = Black` before replaying the moves, so during the replay of the 10th
Black move at `(6,9)` the `overline` check runs (it never ran in the original
game) and fires spuriously: its connection counter is not reset between the
horizontal pass (which ends on the three Black stones at the right edge of
row 9) and the diagonal-down pass (which starts on the three Black stones
`(0,3) (1,4) (2,5)`), summing 3 + 3 = 6.  The imported game ends `Forbidden`
with winner White, the turn order flips from that move on, and the board
contents differ, e.g. at `(12,1)` and `(0,4)`. -/
theorem claim2_eval :
    exportedRenjuGame.state = GAME_STATE_FINISHED ∧
    exportedRenjuGame.winner = BLACK_STONE ∧
    (game_import (game_export exportedRenjuGame) junkInert).map Game.state =
      some GAME_STATE_FORBIDDEN ∧
    (game_import (game_export exportedRenjuGame) junkInert).map Game.winner =
      some WHITE_STONE ∧
    (game_import (game_export exportedRenjuGame) junkInert).map
        (fun g => board_get g.board 12 1) = some BLACK_STONE ∧
    board_get exportedRenjuGame.board 12 1 = WHITE_STONE ∧
    (game_import (game_export exportedRenjuGame) junkInert).map
        (fun g => board_get g.board 0 4) = some WHITE_STONE ∧
    board_get exportedRenjuGame.board 0 4 = BLACK_STONE := by
  set_option maxRecDepth 10000 in decide

/-- Dropping a predicate-satisfying block from the front of an append. -/
theorem dropWhile_append_of_all (p : Nat → Bool) :
    ∀ (ws l : List Nat), (∀ b ∈ ws, p b = true) →
      (ws ++ l).dropWhile p = l.dropWhile p := by
  intro ws
  induction ws with
  | nil => intro l _; rfl
  | cons a t ih =>
    intro l hall
    rw [List.cons_append, List.dropWhile_cons, if_pos (hall a (List.mem_cons_self a t))]
    exact ih l fun b hb => hall b (List.mem_cons_of_mem a hb)

/-- `dropWhile` keeps a list whose head fails the predicate. -/
theorem dropWhile_eq_self_of_head (p : Nat → Bool) (a : Nat) (l : List Nat)
    (h : p a = false) : (a :: l).dropWhile p = a :: l := by
  rw [List.dropWhile_cons, if_neg (by simp [h])]

/-- `takeWhile` captures exactly a satisfying block followed by a
non-satisfying head. -/
theorem takeWhile_append_of_all (p : Nat → Bool) :
    ∀ (ds rest : List Nat), (∀ b ∈ ds, p b = true) →
      (∀ r0 ∈ rest.head?, p r0 = false) → (ds ++ rest).takeWhile p = ds := by
  intro ds
  induction ds with
  | nil =>
    intro rest _ hr
    cases rest with
    | nil => rfl
    | cons r t =>
      rw [List.nil_append, List.takeWhile_cons, if_neg (by simp [hr r rfl])]
  | cons a t ih =>
    intro rest hall hr
    rw [List.cons_append, List.takeWhile_cons, if_pos (hall a (List.mem_cons_self a t))]
    rw [ih rest (fun b hb => hall b (List.mem_cons_of_mem a hb)) hr]

/-- The head surviving a `dropWhile` fails the predicate. -/
theorem dropWhile_head_false (p : Nat → Bool) :
    ∀ (l : List Nat) (r0 : Nat), r0 ∈ (l.dropWhile p).head? → p r0 = false := by
  intro l
  induction l with
  | nil => intro r0 h; simp [List.dropWhile] at h
  | cons a t ih =>
    intro r0 h
    rw [List.dropWhile_cons] at h
    by_cases hp : p a
    · rw [if_pos hp] at h
      exact ih r0 h
    · rw [if_neg hp] at h
      have ha : a = r0 := by simpa using h
      subst ha
      simpa using hp

/-- A digit byte is not a space byte and is neither sign byte. -/
theorem digit_not_space (d : Nat) (h : isDigitByte d = true) :
    isSpaceByte d = false ∧ d ≠ 43 ∧ d ≠ 45 := by
  simp only [isDigitByte, Bool.and_eq_true, decide_eq_true_eq] at h
  refine ⟨?_, by omega, by omega⟩
  simp only [isSpaceByte, Bool.or_eq_false_iff, Bool.and_eq_false_iff,
    beq_eq_false_iff_ne, decide_eq_false_iff_not]
  omega

/-- `scanIntTail` on a leading `+`. -/
theorem scanIntTail_plus (r : List Nat) :
    scanIntTail (43 :: r) =
      if r.takeWhile isDigitByte = [] then none
      else some ((digitsVal (r.takeWhile isDigitByte) : Int)) := by
  simp [scanIntTail]

/-- `scanIntTail` on a leading `-`. -/
theorem scanIntTail_minus (r : List Nat) :
    scanIntTail (45 :: r) =
      if r.takeWhile isDigitByte = [] then none
      else some (-(digitsVal (r.takeWhile isDigitByte) : Int)) := by
  simp [scanIntTail]

/-- `scanIntTail` on a leading non-sign byte. -/
theorem scanIntTail_plain (c : Nat) (r : List Nat) (h43 : c ≠ 43) (h45 : c ≠ 45) :
    scanIntTail (c :: r) =
      if (c :: r).takeWhile isDigitByte = [] then none
      else some ((digitsVal ((c :: r).takeWhile isDigitByte) : Int)) := by
  simp [scanIntTail, h43, h45]

/-- Soundness of the decomposed view of `%d`: a whitespace block, an
optional `+`, a nonempty digit block and a non-digit-led remainder scan to
the value of the digit block. -/
theorem scanInt_eq_some (ws sg ds rest : List Nat)
    (hws : ∀ b ∈ ws, isSpaceByte b = true)
    (hsg : sg = [] ∨ sg = [43])
    (hne : ds ≠ []) (hds : ∀ b ∈ ds, isDigitByte b = true)
    (hr : ∀ r0 ∈ rest.head?, isDigitByte r0 = false) :
    scanInt (ws ++ (sg ++ (ds ++ rest))) = some ((digitsVal ds : Int)) := by
  obtain ⟨d0, dt, rfl⟩ : ∃ d0 dt, ds = d0 :: dt := by
    cases ds with
    | nil => exact absurd rfl hne
    | cons a t => exact ⟨a, t, rfl⟩
  have hd0 : isDigitByte d0 = true := hds d0 (List.mem_cons_self _ _)
  obtain ⟨hd0s, hd43, hd45⟩ := digit_not_space d0 hd0
  have htw : ((d0 :: dt) ++ rest).takeWhile isDigitByte = d0 :: dt :=
    takeWhile_append_of_all isDigitByte (d0 :: dt) rest hds hr
  have htw2 : (d0 :: (dt ++ rest)).takeWhile isDigitByte = d0 :: dt := by
    rw [← List.cons_append]
    exact htw
  rw [scanInt, dropWhile_append_of_all isSpaceByte ws _ hws]
  rcases hsg with h | h
  · subst h
    rw [List.nil_append, List.cons_append,
      dropWhile_eq_self_of_head isSpaceByte d0 (dt ++ rest) hd0s,
      scanIntTail_plain d0 (dt ++ rest) hd43 hd45, htw2, if_neg hne]
  · subst h
    rw [List.singleton_append,
      dropWhile_eq_self_of_head isSpaceByte 43 _ (by decide),
      scanIntTail_plus, htw, if_neg hne]

/-- Completeness of the decomposed view: a successful `%d` scan with a
value at least 1 decomposes the text into whitespace, an optional `+`, the
scanned digit block and a non-digit-led remainder. -/
theorem scanInt_some_inv (tail : List Nat) (row : Int)
    (h : scanInt tail = some row) (hpos : 1 ≤ row) :
    ∃ ws sg ds rest, tail = ws ++ (sg ++ (ds ++ rest)) ∧
      (∀ b ∈ ws, isSpaceByte b = true) ∧ (sg = [] ∨ sg = [43]) ∧
      ds ≠ [] ∧ (∀ b ∈ ds, isDigitByte b = true) ∧
      (∀ r0 ∈ rest.head?, isDigitByte r0 = false) ∧ row = (digitsVal ds : Int) := by
  rw [scanInt] at h
  have hsplit : tail.takeWhile isSpaceByte ++ tail.dropWhile isSpaceByte = tail :=
    List.takeWhile_append_dropWhile _ _
  have hws : ∀ b ∈ tail.takeWhile isSpaceByte, isSpaceByte b = true :=
    fun b hb => List.mem_takeWhile_imp hb
  cases hl1 : tail.dropWhile isSpaceByte with
  | nil => rw [hl1] at h; simp [scanIntTail] at h
  | cons c r =>
    rw [hl1] at h
    rw [hl1] at hsplit
    by_cases h43 : c = 43
    · subst h43
      rw [scanIntTail_plus] at h
      by_cases hds0 : r.takeWhile isDigitByte = []
      · rw [if_pos hds0] at h; simp at h
      · rw [if_neg hds0] at h
        refine ⟨tail.takeWhile isSpaceByte, [43], r.takeWhile isDigitByte,
          r.dropWhile isDigitByte, ?_, hws, Or.inr rfl, hds0,
          fun b hb => List.mem_takeWhile_imp hb,
          fun r0 h0 => dropWhile_head_false isDigitByte r r0 h0,
          (Option.some.inj h).symm⟩
        rw [List.singleton_append, List.takeWhile_append_dropWhile]
        exact hsplit.symm
    · by_cases h45 : c = 45
      · subst h45
        rw [scanIntTail_minus] at h
        by_cases hds0 : r.takeWhile isDigitByte = []
        · rw [if_pos hds0] at h; simp at h
        · rw [if_neg hds0] at h
          have := Option.some.inj h
          omega
      · rw [scanIntTail_plain c r h43 h45] at h
        by_cases hds0 : (c :: r).takeWhile isDigitByte = []
        · rw [if_pos hds0] at h; simp at h
        · rw [if_neg hds0] at h
          refine ⟨tail.takeWhile isSpaceByte, [], (c :: r).takeWhile isDigitByte,
            (c :: r).dropWhile isDigitByte, ?_, hws, Or.inl rfl, hds0,
            fun b hb => List.mem_takeWhile_imp hb,
            fun r0 h0 => dropWhile_head_false isDigitByte (c :: r) r0 h0,
            (Option.some.inj h).symm⟩
          rw [List.nil_append, List.takeWhile_append_dropWhile]
          exact hsplit.symm

/-- Unfolding of `board_coord` on a nonempty text whose remainder scans to a
row value. -/
theorem board_coord_cons (size c : Nat) (tail : List Nat) (row : Int)
    (hs : scanInt tail = some row) :
    board_coord size (c :: tail) =
      if c < 65 ∨ 65 + size ≤ c ∨ row < 1 ∨ (size : Int) < row ∨
          3 < (c :: tail).length then none
      else some (c - 65, size - row.toNat) := by
  simp [board_coord, hs]

/-- Unfolding of `board_coord` when the `%d` conversion fails. -/
theorem board_coord_cons_none (size c : Nat) (tail : List Nat)
    (hs : scanInt tail = none) : board_coord size (c :: tail) = none := by
  simp [board_coord, hs]

/-- Claim C8, amended: `board_coord` succeeds exactly on texts of at most 3
bytes whose first byte is a letter in the half-open range from `A` of width `size`, and whose remaining
bytes consist of optional whitespace, an optional `+` sign, and a nonempty
run of decimal digits with value in `[1, size]` — followed by arbitrary
further bytes, which are NOT rejected (the C `sscanf` stops converting at
the first non-digit and `board_coord` never inspects what follows); the
result is the parsed pair.  On every other text it fails with
`FORMAL_COORDINATE_ERR` (modelled as `none`).  This corrects the original
claim, which required the remainder to consist of digits only and a trailing
non-digit byte to be rejected. -/
theorem claim8_amended (size : Nat) (text : List Nat) (p : Nat × Nat) :
    board_coord size text = some p ↔
      ∃ c ws sg ds rest, text = c :: (ws ++ (sg ++ (ds ++ rest))) ∧
        (∀ b ∈ ws, isSpaceByte b = true) ∧ (sg = [] ∨ sg = [43]) ∧
        ds ≠ [] ∧ (∀ b ∈ ds, isDigitByte b = true) ∧
        (∀ r0 ∈ rest.head?, isDigitByte r0 = false) ∧
        65 ≤ c ∧ c < 65 + size ∧ 1 ≤ digitsVal ds ∧ digitsVal ds ≤ size ∧
        text.length ≤ 3 ∧ p = (c - 65, size - digitsVal ds) := by
  constructor
  · intro h
    cases text with
    | nil => simp [board_coord] at h
    | cons c tail =>
      cases hscan : scanInt tail with
      | none => rw [board_coord_cons_none size c tail hscan] at h; simp at h
      | some row =>
        rw [board_coord_cons size c tail row hscan] at h
        by_cases hcond : c < 65 ∨ 65 + size ≤ c ∨ row < 1 ∨ (size : Int) < row ∨
            3 < (c :: tail).length
        · rw [if_pos hcond] at h; simp at h
        · rw [if_neg hcond] at h
          push_neg at hcond
          obtain ⟨h1, h2, h3, h4, h5⟩ := hcond
          obtain ⟨ws, sg, ds, rest, htail, hws, hsg, hne, hds, hr, hval⟩ :=
            scanInt_some_inv tail row hscan h3
          refine ⟨c, ws, sg, ds, rest, by rw [htail], hws, hsg, hne, hds, hr,
            by omega, by omega, ?_, ?_, by simpa using h5, ?_⟩
          · rw [hval] at h3
            exact_mod_cast h3
          · rw [hval] at h4
            exact_mod_cast h4
          · rw [← Option.some.inj h, hval]
            simp
  · rintro ⟨c, ws, sg, ds, rest, rfl, hws, hsg, hne, hds, hr, h1, h2, hv1, hv2,
      hlen, rfl⟩
    have hscan := scanInt_eq_some ws sg ds rest hws hsg hne hds hr
    rw [board_coord_cons size c _ ((digitsVal ds : Int)) hscan]
    have hcond : ¬(c < 65 ∨ 65 + size ≤ c ∨ (digitsVal ds : Int) < 1 ∨
        (size : Int) < (digitsVal ds : Int) ∨
        3 < (c :: (ws ++ (sg ++ (ds ++ rest)))).length) := by
      push_neg
      refine ⟨by omega, by omega, by exact_mod_cast hv1, by exact_mod_cast hv2,
        by simpa using hlen⟩
    rw [if_neg hcond]
    simp

/-- Counterexample to C8 as stated: the text `A1x` — a valid letter and row
number followed by a non-digit byte within the 3-character limit — is
accepted by `board_coord` (returning `(0, 14)` on a size-15 board), where
the claim requires it to fail with `FormalCoordinateError`. -/
theorem claim8_cex :
    isDigitByte 120 = false ∧
    ([65, 49, 120] : List Nat).length ≤ 3 ∧
    board_coord 15 [65, 49, 120] = some (0, 14) := by
  decide
